import Mathlib

/-!
Shallow embedding of the ROI import/normalization pipeline of
`roicat/data_importing.py` (classes `Data_suite2p` and `Data_caiman`),
together with theorems settling the frozen claims about it.

Conventions of the embedding:
- numpy float arrays are modelled with `ℚ`; machine `uint64` arithmetic is
  modelled with `ℕ` and explicit `% 2^64`;
- scipy/sparse matrices are modelled by their stored-entry lists in storage
  order (CSR / row-major lexicographic order of coordinates);
- a Python function that can raise is modelled with `Except String`;
- a numpy value that can be NaN (e.g. `np.nanmedian` of an all-NaN row) is
  modelled with `Option`.
-/

/-- One stored entry of a sparse (n_roi, FOV_height, FOV_width) array:
`sparse.COO` coordinates `(r, c)` within the ROI's plane, and the stored
weight `w` (from `sf_rs.data`). -/
structure Entry where
  r : ℕ
  c : ℕ
  w : ℚ
  deriving DecidableEq

/-! ### Small numpy helpers -/

/-- `np.cumsum` on a 1-D integer array. -/
def cumsum : List ℕ → List ℕ
  | [] => []
  | a :: t => a :: (cumsum t).map (a + ·)

/-- `np.split(arr, pts)` for a sorted list of absolute split indices `pts`:
the groups `arr[0:p1], arr[p1:p2], ..., arr[pk:]`. The helper `go` carries
the absolute position `prev` of the start of the remaining array. -/
def npSplit (arr : List α) (pts : List ℕ) : List (List α) :=
  go arr 0 pts
where
  go : List α → ℕ → List ℕ → List (List α)
    | arr, _, [] => [arr]
    | arr, prev, p :: rest => arr.take (p - prev) :: go (arr.drop (p - prev)) p rest

/-- Insertion of one element into a sorted list (helper for `sortList`). -/
def insertSorted [LinearOrder α] (x : α) : List α → List α
  | [] => [x]
  | a :: t => if x ≤ a then x :: a :: t else a :: insertSorted x t

/-- An ascending sort, modelling the internal sort of `np.median`/`np.nanmedian`. -/
def sortList [LinearOrder α] (l : List α) : List α := l.foldr insertSorted []

/-- `np.round`: round half to even ("banker's rounding"). -/
def npRound (x : ℚ) : ℤ :=
  let f := ⌊x⌋
  let frac := x - f
  if frac < 1/2 then f
  else if 1/2 < frac then f + 1
  else if f % 2 = 0 then f else f + 1

/-- `np.median` of a (nonempty) list: sort, then take the middle element, or
the mean of the two middle elements for even length. -/
def npMedian (l : List ℚ) : ℚ :=
  let s := sortList l
  if s.length % 2 = 1 then s.getD (s.length / 2) 0
  else (s.getD (s.length / 2 - 1) 0 + s.getD (s.length / 2) 0) / 2

/-- `arr.min()` for a numpy integer array; numpy raises on an empty array,
which is not modelled (only nonempty ranges are used by the claims). -/
def minNat : List ℕ → ℕ
  | [] => 0
  | a :: t => t.foldl min a

/-! ### CoordinateShiftCorrector (`Data_suite2p.__init__`, line 69, and
`_helper_populate_sf`, lines 757-758) -/

/-- One component of the per-session shift for the legacy ('old' suite2p)
convention: `np.array([op['yrange'].min()-1, ...], dtype=np.uint64)`.
The subtraction of 1 lands in a `uint64` slot, so the stored value is
`(range_min - 1) mod 2^64`. -/
def shift_component (range_min : ℕ) : ℕ :=
  (((range_min : ℤ) - 1) % (2 ^ 64 : ℤ)).toNat

/-- The per-session shift pair for the legacy convention, from the session's
`yrange` and `xrange` metadata (line 69). -/
def shifts_old (yrange xrange : List ℕ) : ℕ × ℕ :=
  (shift_component (minNat yrange), shift_component (minNat xrange))

/-- The per-session shift for the modern ('new' suite2p) convention
(line 71): the zero vector. -/
def shifts_new : ℕ × ℕ := (0, 0)

/-- Application of one shift component to one pixel index
(`np.array(roi['ypix'], dtype=np.uint64) + shifts[0]`, lines 757-758):
`uint64` addition, i.e. addition modulo `2^64`. -/
def apply_shift (p s : ℕ) : ℕ := (p + s) % 2 ^ 64

/-! ### CaImAn adapter reshape (`_import_spatialFootprints`, line 495) -/

/-- Column-major (Fortran) flattening of an `(H, W)` mask `m`:
flat index `k` holds `m (k % H) (k / H)`. This is the per-row storage format
of CaImAn's `estimates.A` (after the CSC-to-CSR transpose reading). -/
def fortran_flatten (H W : ℕ) (m : ℕ → ℕ → ℚ) : List ℚ :=
  (List.range (H * W)).map (fun k => m (k % H) (k / H))

/-- Row-major (C) flattening of an `(H, W)` mask `m`:
flat index `k` holds `m (k / W) (k % W)`. -/
def c_flatten (H W : ℕ) (m : ℕ → ℕ → ℚ) : List ℚ :=
  (List.range (H * W)).map (fun k => m (k / W) (k % W))

/-- The index manipulation of line 495 applied to one flattened row `v`:
`.reshape((n, W, H)).transpose((0, 2, 1)).reshape((n, W*H))`.
Reshaping `v` row-major to `(W, H)` puts `v[c*H + r]` at `(c, r)`; the
transpose moves it to `(r, c)`; reflattening row-major reads position `k`
from `(k / W, k % W)`, i.e. from `v[(k % W) * H + k / W]`. -/
def caiman_reorder (H W : ℕ) (v : List ℚ) : List ℚ :=
  (List.range (H * W)).map (fun k => v.getD ((k % W) * H + k / W) 0)

/-- `Data_caiman.import_caimanResults._import_spatialFootprints`, reshape
step (line 495), applied to the whole stacked matrix `sf_F` (one row per
component, each row Fortran-flattened). -/
def _import_spatialFootprints_reorder (H W : ℕ) (sf_F : List (List ℚ)) : List (List ℚ) :=
  sf_F.map (caiman_reorder H W)

/-! ### CentroidEngine (`Data_suite2p.get_centroids`, lines 274-304, and
`Data_caiman.get_centroids`, lines 645-679)

A footprint row is a flattened list of length `FOV_height * FOV_width`
(C order); `w_wt = sf_rs.sum(axis=2)` is the row marginal and
`h_wt = sf_rs.sum(axis=1)` the column marginal. -/

/-- Row marginal of one flattened footprint row: `sf_rs.sum(axis=2)` at row
index `r`. -/
def row_marginal (FOV_width : ℕ) (row : List ℚ) (r : ℕ) : ℚ :=
  ((List.range FOV_width).map (fun c => row.getD (r * FOV_width + c) 0)).sum

/-- Column marginal of one flattened footprint row: `sf_rs.sum(axis=1)` at
column index `c`. -/
def col_marginal (FOV_height FOV_width : ℕ) (row : List ℚ) (c : ℕ) : ℚ :=
  ((List.range FOV_height).map (fun r => row.getD (r * FOV_width + c) 0)).sum

/-- Weighted-mean coordinate along one axis (lines 298-299 / 668-669):
`((marg * arange).sum / marg.sum)`, then `np.round(...).astype(np.int64)`.
A zero total mass gives NaN in numpy; modelled as `none`. -/
def weighted_mean_coord (dim : ℕ) (marg : ℕ → ℚ) : Option ℤ :=
  let den := ((List.range dim).map (fun i => marg i)).sum
  let num := ((List.range dim).map (fun i => marg i * i)).sum
  if den = 0 then none else some (npRound (num / den))

/-- Median coordinate along one axis in `Data_caiman.get_centroids`
(lines 671-676): `(marg != 0) * arange` puts index `i` where the marginal is
non-zero and `0` elsewhere; all zeros (so index 0 as well, even when its
marginal is non-zero) are replaced by NaN; `np.nanmedian` takes the median of
the remaining values, giving NaN when none remain (modelled as `none`);
then `np.round`. -/
def caiman_median_coord (dim : ℕ) (marg : ℕ → ℚ) : Option ℤ :=
  let vals := (((List.range dim).map (fun i => if marg i ≠ 0 then (i : ℚ) else 0)).filter
    (fun v => decide (v ≠ 0)))
  if vals = [] then none else some (npRound (npMedian vals))

/-- `Data_caiman.get_centroids` (lines 645-679). Input: the stored rows of a
csr matrix of shape `(n_roi, FOV_height * FOV_width)` as dense flattened
lists; output: per-ROI `(y, x)` centroid. -/
def Data_caiman_get_centroids (centroid_method : String) (sf : List (List ℚ))
    (FOV_height FOV_width : ℕ) : Except String (List (Option ℤ × Option ℤ)) :=
  if centroid_method = "centroid" then
    .ok (sf.map (fun row =>
      (weighted_mean_coord FOV_height (row_marginal FOV_width row),
       weighted_mean_coord FOV_width (col_marginal FOV_height FOV_width row))))
  else if centroid_method = "median" then
    .ok (sf.map (fun row =>
      (caiman_median_coord FOV_height (row_marginal FOV_width row),
       caiman_median_coord FOV_width (col_marginal FOV_height FOV_width row))))
  else
    .error "Only valid methods are \"centroid\" or \"median\""

/-- `Data_suite2p.get_centroids` (lines 274-304). Identical to the
`Data_caiman` version for the weighted-mean method, but the
`'median'` branch is `return None` (line 301): no centroids are produced. -/
def Data_suite2p_get_centroids (centroid_method : String) (sf : List (List ℚ))
    (FOV_height FOV_width : ℕ) :
    Except String (Option (List (Option ℤ × Option ℤ))) :=
  if centroid_method = "centroid" then
    .ok (some (sf.map (fun row =>
      (weighted_mean_coord FOV_height (row_marginal FOV_width row),
       weighted_mean_coord FOV_width (col_marginal FOV_height FOV_width row)))))
  else if centroid_method = "median" then
    .ok none
  else
    .error "Only valid methods are \"centroid\" or \"median\""

/-! ### ROICenteringEngine (`sf_to_centeredROIs`, the inner function of
`Data_suite2p.import_ROI_centeredImages`, lines 324-340, and — verbatim the
same code — of `Data_caiman.import_ROI_centeredImages`, lines 559-575)

The session footprint `sf` is modelled by its stored entries grouped per ROI
in storage order (`sparse.COO(sf).reshape((n, H, W))` stores coordinates in
row-major lexicographic order, ROI-major), so `sf_rs.coords[0]` is the
concatenation of `row.length` copies of each ROI index, `sf_rs.coords[1]`
the row coordinates, `sf_rs.coords[2]` the column coordinates, and
`sf_rs.data` the weights. -/

/-- `sf_rs.coords[0]`: the ROI-index coordinate array. -/
def sfCoords0 (sf : List (List Entry)) : List ℕ :=
  (sf.enum.map (fun p => List.replicate p.2.length p.1)).flatten

/-- `sf_rs.coords[1]`: the row coordinate array. -/
def sfCoords1 (sf : List (List Entry)) : List ℕ :=
  (sf.map (fun row => row.map (fun e => e.r))).flatten

/-- `sf_rs.coords[2]`: the column coordinate array. -/
def sfCoords2 (sf : List (List Entry)) : List ℕ :=
  (sf.map (fun row => row.map (fun e => e.c))).flatten

/-- `sf_rs.data`: the stored weights. -/
def sfData (sf : List (List Entry)) : List ℚ :=
  (sf.map (fun row => row.map (fun e => e.w))).flatten

/-- The assertion of lines 329-331: `coords_diff = np.diff(sf_rs.coords[0])`
must satisfy `np.all(coords_diff < 1.01) and np.all(coords_diff > -0.01)`;
for integer coordinates this means every consecutive difference is 0 or 1. -/
def coordsDiffOk (l : List ℕ) : Bool :=
  (l.zip l.tail).all (fun p => decide (p.1 ≤ p.2) && decide (p.2 ≤ p.1 + 1))

/-- Per-ROI count of strictly positive entries:
`(sf_rs > 0).astype(np.bool8).sum((1, 2))` for one ROI (line 333). -/
def posCount (row : List Entry) : ℕ :=
  (row.filter (fun e => decide (0 < e.w))).length

/-- `idx_split` (line 333): cumulative positive counts with the last one
dropped (`.cumsum()[:-1]`), used as `np.split` points. -/
def splitPoints (sf : List (List Entry)) : List ℕ :=
  (cumsum (sf.map posCount)).dropLast

/-- Lines 335-336: `[coords - centroids[a][ii] + half_widths[a] for
ii, coords in enumerate(coords_split[a])]` — translate each split group by
the group-indexed centroid component plus the half width. -/
def translateGroups (groups : List (List ℕ)) (cent : List ℤ) (hw : ℤ) :
    List (List ℤ) :=
  groups.enum.map (fun p => p.2.map (fun (x : ℕ) => (x : ℤ) - cent.getD p.1 0 + hw))

/-- `sf_to_centeredROIs(sf, centroids, out_height_width)` (lines 324-340 and
559-575). `centroids` is the transposed per-session centroid array: entry
`i` is ROI `i`'s `(row, col)` centroid.

Line 325 immediately reassigns `out_height_width = np.array([36, 36])`, so
the passed argument is ignored; `half_widths = np.ceil(out_height_width/2)`
is `(18, 18)`. After the coordinate translation the array is sliced
`[:, :out_height_width[0], :out_height_width[1]]` — on an array of shape
`(n, FOV_height, FOV_width)` the slice stops are `min 36 FOV_height` and
`min 36 FOV_width`, and stored entries whose (possibly negative) translated
coordinates fall outside the slice are dropped — and then densified. -/
def sf_to_centeredROIs (FOV_height FOV_width : ℕ) (sf : List (List Entry))
    (centroids : List (ℤ × ℤ)) (out_height_width : ℕ × ℕ) :
    Except String (List (List (List ℚ))) :=
  let out_height_width : ℕ × ℕ := (36, 36)
  let half_widths : ℤ × ℤ :=
    (((out_height_width.1 + 1) / 2 : ℕ), ((out_height_width.2 + 1) / 2 : ℕ))
  if coordsDiffOk (sfCoords0 sf) then
    let sp := splitPoints sf
    let tr := (translateGroups (npSplit (sfCoords1 sf) sp)
      (centroids.map (fun c => c.1)) half_widths.1).flatten
    let tc := (translateGroups (npSplit (sfCoords2 sf) sp)
      (centroids.map (fun c => c.2)) half_widths.2).flatten
    let data := sfData sf
    let quads := (sfCoords0 sf).zip (tr.zip (tc.zip data))
    let hOut := min out_height_width.1 FOV_height
    let wOut := min out_height_width.2 FOV_width
    .ok ((List.range sf.length).map (fun (i : ℕ) =>
      (List.range hOut).map (fun (r : ℕ) =>
        (List.range wOut).map (fun (c : ℕ) =>
          ((quads.filter (fun q =>
            decide (q.1 = i) && decide (q.2.1 = (r : ℤ)) &&
            decide (q.2.2.1 = (c : ℤ)))).map (fun q => q.2.2.2)).sum))))
  else
    .error "RH ERROR: sparse.COO object has strange .coords attribute. sf_rs.coords[0] should all be 0 or 1. An ROI is possibly all zeros."

/-- The value of the centered output at ROI `i`, row `r`, column `c` (0 when
the import failed or the indices are out of range). -/
def centeredCell (res : Except String (List (List (List ℚ)))) (i r c : ℕ) : ℚ :=
  (((res.toOption.getD []).getD i []).getD r []).getD c 0

/-! ### Label import (`Data_suite2p.import_ROI_labels`, lines 175-196, and
`Data_caiman.import_ROI_labels`, lines 622-643) -/

/-- Modelled from the spec: `helpers.squeeze_integers` lives in
`roicat/helpers.py`, which is not under `src/`; per the spec, label arrays
are "concatenated and re-mapped to a dense zero-based label space", i.e.
each label is replaced by its rank among the distinct labels present. -/
def squeeze_integers (l : List ℤ) : List ℤ :=
  let vals := sortList l.dedup
  l.map (fun x => (vals.indexOf x : ℤ))

/-- The guard `type(self.statFiles) is np.ndarray` of line 191:
`self.statFiles` is constructed as a Python *list* of loaded arrays
(line 111: `self.statFiles = [np.load(path, ...) for path in ...]`), so the
guard is always `False` and the assert after it never runs. -/
def statFiles_is_ndarray : Bool := false

/-- `Data_suite2p.import_ROI_labels` (lines 175-196). `statFile_lengths` are
the per-session ROI counts `len(stat)`; `raw_labels` the loaded label
arrays. The consistency assert of line 192 sits under the dead guard of line
191, so mismatched counts pass through silently. -/
def Data_suite2p_import_ROI_labels (statFile_lengths : List ℕ)
    (raw_labels : List (List ℤ)) : Except String (List ℤ) :=
  let labelFiles := squeeze_integers raw_labels.flatten
  if statFiles_is_ndarray then
    if statFile_lengths.sum = labelFiles.length then .ok labelFiles
    else .error "num images in stat files does not correspond to num labels"
  else .ok labelFiles

/-- `Data_caiman.import_ROI_labels` (lines 622-643): line 638 reads
`self.statFiles`, an attribute `Data_caiman` never assigns, so the method
always raises `AttributeError` — on matched and mismatched counts alike. -/
def Data_caiman_import_ROI_labels (raw_labels : List (List ℤ)) :
    Except String (List ℤ) :=
  let _labelFiles := squeeze_integers raw_labels.flatten
  .error "AttributeError: Data_caiman object has no attribute statFiles"

/-! ### SessionIndexBuilder (`Data_suite2p.import_ROI_spatialFootprints`,
line 266, and `Data_caiman.__init__`, line 435) -/

/-- Modelled from the spec: `helpers.idx2bool` lives in `roicat/helpers.py`,
which is not under `src/`; per the spec it produces the one-hot boolean row
with `true` exactly at column `i`. -/
def idx2bool (i length : ℕ) : List Bool :=
  (List.range length).map (fun j => decide (j = i))

/-- `self.sessionID_concat = np.vstack([[helpers.idx2bool(i_sesh,
length=len(self.spatialFootprints))] * sesh.shape[0] for i_sesh, sesh in
enumerate(self.spatialFootprints)])` (lines 266 and 435). Only the
per-session row counts `sesh.shape[0]` matter. -/
def sessionID_concat (n_roi : List ℕ) : List (List Bool) :=
  (n_roi.enum.map (fun p => List.replicate p.2 (idx2bool p.1 n_roi.length))).flatten

/-! ### Spec-side definition used to check the median claim -/

/-- Modelled from the spec (refinement target for the median claim): the
row component is "the median of the set of row indices in which the ROI has
any non-zero pixel", zero entries excluded by treating them as missing —
so the index set itself keeps index 0 when its marginal is non-zero. -/
def spec_median_coord (dim : ℕ) (marg : ℕ → ℚ) : Option ℤ :=
  let idxs := ((List.range dim).filter (fun i => decide (marg i ≠ 0))).map
    (fun i => (i : ℚ))
  if idxs = [] then none else some (npRound (npMedian idxs))

/-- Modelled from the spec: per-ROI median centroids as the spec describes
them, to be compared with `Data_caiman_get_centroids "median"`. -/
def spec_median_centroids (sf : List (List ℚ)) (FOV_height FOV_width : ℕ) :
    List (Option ℤ × Option ℤ) :=
  sf.map (fun row =>
    (spec_median_coord FOV_height (row_marginal FOV_width row),
     spec_median_coord FOV_width (col_marginal FOV_height FOV_width row)))

/-- Shape view of a centering result: the number of ROIs and, per ROI, the
number of rows together with the length of each row. -/
def centeredShape (res : Except String (List (List (List ℚ)))) :
    ℕ × List (ℕ × List ℕ) :=
  ((res.toOption.getD []).length,
   (res.toOption.getD []).map (fun img => (img.length, img.map List.length)))

/-! ## Theorems -/

/-! ### C3: CaImAn Fortran-to-C reorder round trip -/

theorem caiman_reorder_fortran (H W : ℕ) (m : ℕ → ℕ → ℚ) :
    caiman_reorder H W (fortran_flatten H W m) = c_flatten H W m := by
  unfold caiman_reorder fortran_flatten c_flatten
  apply List.map_congr_left
  intro k hk
  rw [List.mem_range] at hk
  have hW : 0 < W := by
    rcases Nat.eq_zero_or_pos W with h | h
    · simp [h] at hk
    · exact h
  have hH : 0 < H := by
    rcases Nat.eq_zero_or_pos H with h | h
    · simp [h] at hk
    · exact h
  have hdiv : k / W < H := (Nat.div_lt_iff_lt_mul hW).mpr hk
  have hmod : k % W < W := Nat.mod_lt _ hW
  have hidx : (k % W) * H + k / W < H * W := by
    calc (k % W) * H + k / W < (k % W) * H + H := by omega
    _ = (k % W + 1) * H := by ring
    _ ≤ W * H := Nat.mul_le_mul_right _ (by omega)
    _ = H * W := mul_comm _ _
  have hlen : (k % W) * H + k / W <
      ((List.range (H * W)).map (fun j => m (j % H) (j / H))).length := by
    simpa using hidx
  rw [List.getD_eq_getElem _ _ hlen]
  simp only [List.getElem_map, List.getElem_range]
  rw [Nat.mul_comm (k % W) H, Nat.mul_add_mod, Nat.mod_eq_of_lt hdiv,
    Nat.mul_add_div hH, Nat.div_eq_of_lt hdiv, Nat.add_zero]

/-- C3: for every FOV shape `(H, W)`, the CaImAn adapter's
reshape–transpose–reflatten step (line 495) turns each Fortran-flattened
(column-major) mask row into exactly the row-major flattening of the same
mask: the round trip reproduces the original mask. -/
theorem C3_caiman_fortran_to_C_roundtrip (H W : ℕ) (masks : List (ℕ → ℕ → ℚ)) :
    _import_spatialFootprints_reorder H W (masks.map (fortran_flatten H W)) =
      masks.map (c_flatten H W) := by
  unfold _import_spatialFootprints_reorder
  rw [List.map_map]
  exact List.map_congr_left (fun m _ => caiman_reorder_fortran H W m)

/-! ### C5 / C10: legacy shift computation and application -/

theorem shift_component_eq {m : ℕ} (h1 : 1 ≤ m) (h2 : m ≤ 2 ^ 64) :
    shift_component m = m - 1 := by
  unfold shift_component
  have hnum : (2 : ℤ) ^ 64 = 18446744073709551616 := by norm_num
  have h2' : (m : ℤ) ≤ 18446744073709551616 := by exact_mod_cast h2
  have h1' : (1 : ℤ) ≤ (m : ℤ) := by exact_mod_cast h1
  rw [hnum, Int.emod_eq_of_lt (by omega) (by omega)]
  omega

/-- C5: for a legacy ('old' suite2p) session, the stored shift is
`(min(yrange) − 1, min(xrange) − 1)` and is added to every ROI pixel index,
so a pixel at `(py, px)` lands at `(py + min(yrange) − 1, px + min(xrange) − 1)`;
for the modern ('new') convention the shift is the zero vector and pixels
are unchanged. -/
theorem C5_legacy_shift_correction (yrange xrange : List ℕ) (py px : ℕ)
    (hy : 1 ≤ minNat yrange) (hx : 1 ≤ minNat xrange)
    (hpy : py + minNat yrange ≤ 2 ^ 64) (hpx : px + minNat xrange ≤ 2 ^ 64) :
    shifts_old yrange xrange = (minNat yrange - 1, minNat xrange - 1) ∧
    apply_shift py (shifts_old yrange xrange).1 = py + minNat yrange - 1 ∧
    apply_shift px (shifts_old yrange xrange).2 = px + minNat xrange - 1 ∧
    shifts_new = (0, 0) ∧
    apply_shift py shifts_new.1 = py ∧
    apply_shift px shifts_new.2 = px := by
  have hnum : (2 : ℕ) ^ 64 = 18446744073709551616 := by norm_num
  rw [hnum] at hpy hpx
  have hsy : shift_component (minNat yrange) = minNat yrange - 1 :=
    shift_component_eq hy (by rw [hnum]; omega)
  have hsx : shift_component (minNat xrange) = minNat xrange - 1 :=
    shift_component_eq hx (by rw [hnum]; omega)
  refine ⟨by simp [shifts_old, hsy, hsx], ?_, ?_, rfl, ?_, ?_⟩
  · show (py + shift_component (minNat yrange)) % 2 ^ 64 = _
    rw [hsy, hnum, Nat.mod_eq_of_lt (by omega)]
    omega
  · show (px + shift_component (minNat xrange)) % 2 ^ 64 = _
    rw [hsx, hnum, Nat.mod_eq_of_lt (by omega)]
    omega
  · show (py + 0) % 2 ^ 64 = py
    rw [hnum, Nat.add_zero, Nat.mod_eq_of_lt (by omega)]
  · show (px + 0) % 2 ^ 64 = px
    rw [hnum, Nat.add_zero, Nat.mod_eq_of_lt (by omega)]

/-- Witness for C5: the spec's own example — `valid_row_range = [5, 10]`,
`valid_col_range = [3, 8]`, ROI pixel at relative `(0, 0)` lands at
absolute `(4, 2)`. -/
theorem C5_legacy_shift_correction_witness :
    shifts_old [5, 10] [3, 8] = (4, 2) ∧
    apply_shift 0 (shifts_old [5, 10] [3, 8]).1 = 4 ∧
    apply_shift 0 (shifts_old [5, 10] [3, 8]).2 = 2 := by
  have h := C5_legacy_shift_correction [5, 10] [3, 8] 0 0
    (by norm_num [minNat]) (by norm_num [minNat])
    (by norm_num [minNat]) (by norm_num [minNat])
  refine ⟨?_, ?_, ?_⟩
  · rw [h.1]; norm_num [minNat]
  · rw [h.2.1]; norm_num [minNat]
  · rw [h.2.2.1]; norm_num [minNat]

/-- C10: when `min(yrange) = 0`, the legacy shift component `min − 1` is
stored as `2^64 − 1` in the `uint64` slot, and is then added to each pixel
index modulo `2^64` — no error is raised; pixel 0 becomes `2^64 − 1` and any
pixel `p ≥ 1` becomes `p − 1`. -/
theorem C10_uint64_shift_underflow (yrange : List ℕ) (h0 : minNat yrange = 0)
    (p : ℕ) (hp : p < 2 ^ 64) :
    shift_component (minNat yrange) = 2 ^ 64 - 1 ∧
    apply_shift p (shift_component (minNat yrange)) = (p + (2 ^ 64 - 1)) % 2 ^ 64 ∧
    (p = 0 → apply_shift p (shift_component (minNat yrange)) = 2 ^ 64 - 1) ∧
    (1 ≤ p → apply_shift p (shift_component (minNat yrange)) = p - 1) := by
  have hnum : (2 : ℕ) ^ 64 = 18446744073709551616 := by norm_num
  have hs : shift_component (minNat yrange) = 2 ^ 64 - 1 := by
    rw [h0]
    decide
  refine ⟨hs, by rw [hs]; rfl, ?_, ?_⟩
  · intro hp0
    subst hp0
    show (0 + shift_component (minNat yrange)) % 2 ^ 64 = _
    rw [hs, Nat.zero_add, hnum, Nat.mod_eq_of_lt (by omega)]
  · intro hp1
    show (p + shift_component (minNat yrange)) % 2 ^ 64 = _
    rw [hs, hnum] at *
    have he : p + (18446744073709551616 - 1) = (p - 1) + 18446744073709551616 := by
      omega
    rw [he, Nat.add_mod_right, Nat.mod_eq_of_lt (by omega)]

/-- Witness for C10: a session with `yrange = [0, 5]` stores the shift
component `2^64 − 1`, and a pixel at index 0 is sent to `2^64 − 1`. -/
theorem C10_uint64_shift_underflow_witness :
    shift_component (minNat [0, 5]) = 2 ^ 64 - 1 ∧
    apply_shift 0 (shift_component (minNat [0, 5])) = 2 ^ 64 - 1 := by
  have h := C10_uint64_shift_underflow [0, 5] (by norm_num [minNat]) 0
    (by norm_num)
  exact ⟨h.1, h.2.2.1 rfl⟩

/-! ### C1 / C2 / C7 / C8: concrete evaluations exhibiting the code bugs -/

theorem centeredShape_ok (n h w : ℕ) (cell : ℕ → ℕ → ℕ → ℚ) :
    centeredShape (.ok ((List.range n).map (fun i =>
      (List.range h).map (fun r => (List.range w).map (fun c => cell i r c))))) =
      (n, List.replicate n (h, List.replicate h w)) := by
  simp only [centeredShape, Except.toOption, Option.getD_some, List.length_map,
    List.length_range, List.map_map]
  refine Prod.ext rfl ?_
  show List.map _ (List.range n) = _
  have himg : ∀ i : ℕ, ((fun img => (List.length img, List.map List.length img)) ∘
      fun i => (List.range h).map (fun r => (List.range w).map (fun c => cell i r c))) i
      = (h, List.replicate h w) := by
    intro i
    simp only [Function.comp_def, List.length_map, List.length_range, List.map_map]
    refine Prod.ext rfl ?_
    show List.map (fun _ => w) (List.range h) = List.replicate h w
    rw [List.map_const', List.length_range]
  calc List.map _ (List.range n) = (List.range n).map (fun _ => ((h : ℕ), List.replicate h w)) :=
        List.map_congr_left (fun i _ => himg i)
    _ = List.replicate n (h, List.replicate h w) := by
        rw [List.map_const', List.length_range]

/-- C1: the requested output patch size is ignored. For a session with FOV
40×40, one single-pixel ROI, and requested `out_height_width = (2, 2)`, the
centering step succeeds and returns a patch of shape `(1, 36, 36)` — not
`(1, 2, 2)` — because line 325 reassigns `out_height_width = np.array([36, 36])`
before it is used. -/
theorem C1_requested_patch_size_ignored :
    (sf_to_centeredROIs 40 40 [[⟨0, 0, 1⟩]] [(0, 0)] (2, 2)).isOk = true ∧
    centeredShape (sf_to_centeredROIs 40 40 [[⟨0, 0, 1⟩]] [(0, 0)] (2, 2)) =
      (1, [(36, List.replicate 36 36)]) := by
  have hok : coordsDiffOk (sfCoords0 [[⟨0, 0, 1⟩]]) = true := by decide
  rw [sf_to_centeredROIs]
  simp only [hok, if_true]
  refine ⟨rfl, ?_⟩
  rw [centeredShape_ok]
  decide

/-- C2: `Data_caiman.get_centroids` under `'median'` conflates the value-0
mask with index 0. For one ROI whose non-zero pixels sit at rows `{0, 2}` of
column 1 in a 3×3 FOV, the code masks out row index 0 along with the zeros
and computes `nanmedian {2} = 2`, while the spec's median of the row index
set `{0, 2}` is `(0 + 2) / 2 = 1`. -/
theorem C2_caiman_median_excludes_index_zero :
    Data_caiman_get_centroids "median"
      [[0, 1, 0, 0, 0, 0, 0, 1, 0]] 3 3 = .ok [(some 2, some 1)] ∧
    spec_median_centroids
      [[0, 1, 0, 0, 0, 0, 0, 1, 0]] 3 3 = [(some 1, some 1)] := by
  constructor
  · rw [Data_caiman_get_centroids, if_neg (by decide), if_pos rfl]
    norm_num [caiman_median_coord, row_marginal, col_marginal, List.range_succ,
      npMedian, npRound, sortList, insertSorted]
  · norm_num [spec_median_centroids, spec_median_coord, row_marginal,
      col_marginal, List.range_succ, npMedian, npRound, sortList, insertSorted]

/-- C7: the label/ROI count consistency check never runs. A suite2p session
with 3 ROIs and 5 labels imports successfully (the assert of line 192 is
dead behind the `type(self.statFiles) is np.ndarray` guard), and the CaImAn
variant raises `AttributeError` unconditionally instead of a consistency
error. -/
theorem C7_label_count_mismatch_not_checked :
    Data_suite2p_import_ROI_labels [3] [[0, 1, 2, 3, 4]] = .ok [0, 1, 2, 3, 4] ∧
    [3].sum ≠ ([[0, 1, 2, 3, 4]] : List (List ℤ)).flatten.length ∧
    Data_caiman_import_ROI_labels [[0, 1, 2]] =
      .error "AttributeError: Data_caiman object has no attribute statFiles" := by
  exact ⟨by rfl, by decide, by rfl⟩

/-- C8: `Data_suite2p.get_centroids` under the `'median'` method returns
`None` (line 301) — no integer centroid at all, in-bounds or otherwise —
even for an ROI with a non-zero entry. -/
theorem C8_suite2p_median_returns_no_centroids :
    Data_suite2p_get_centroids "median" [[0, 1, 0, 0]] 2 2 = .ok none := by
  rfl

/-! ### C9: the centering assertion -/

theorem coordsDiffOk_iff_chain (l : List ℕ) :
    coordsDiffOk l = true ↔ List.Chain' (fun a b => a ≤ b ∧ b ≤ a + 1) l := by
  induction l with
  | nil => simp [coordsDiffOk]
  | cons a t ih =>
    cases t with
    | nil => simp [coordsDiffOk]
    | cons b t2 =>
      have hstep : coordsDiffOk (a :: b :: t2) =
          ((decide (a ≤ b) && decide (b ≤ a + 1)) && coordsDiffOk (b :: t2)) := rfl
      rw [hstep, List.chain'_cons, ← ih]
      simp [Bool.and_eq_true, and_assoc]

theorem chain_replicate_of_refl {R : α → α → Prop} {x : α} (hR : R x x) (n : ℕ) :
    List.Chain' R (List.replicate n x) := by
  induction n with
  | zero => simp
  | succ m ih =>
    rw [List.replicate_succ]
    cases m with
    | zero => simp
    | succ m2 =>
      rw [List.replicate_succ]
      exact List.Chain'.cons hR (by rwa [List.replicate_succ] at ih)

theorem chain_sfCoords0_from (l : List (List Entry)) :
    ∀ (k : ℕ), (∀ row ∈ l, row ≠ []) →
    List.Chain' (fun a b => a ≤ b ∧ b ≤ a + 1)
      (((l.enumFrom k).map (fun p => List.replicate p.2.length p.1)).flatten) := by
  induction l with
  | nil => intro k _; simp
  | cons row rest ih =>
    intro k hne
    rw [List.enumFrom_cons, List.map_cons, List.flatten_cons]
    rw [List.chain'_append]
    refine ⟨chain_replicate_of_refl ⟨le_refl k, Nat.le_succ k⟩ _,
      ih (k + 1) (fun r hr => hne r (List.mem_cons_of_mem _ hr)), ?_⟩
    intro x hx y hy
    have hx' : x = k := by
      obtain ⟨hne2, hxl⟩ := List.mem_getLast?_eq_getLast hx
      exact List.eq_of_mem_replicate (hxl ▸ List.getLast_mem hne2)
    subst hx'
    cases rest with
    | nil => simp at hy
    | cons row2 rest2 =>
      have hrow2 : row2 ≠ [] := hne row2 (by simp)
      obtain ⟨m, hm⟩ : ∃ m, row2.length = m + 1 := by
        cases h2 : row2.length with
        | zero => exact absurd (List.length_eq_zero.mp h2) hrow2
        | succ m => exact ⟨m, rfl⟩
      rw [List.enumFrom_cons, List.map_cons, List.flatten_cons, hm,
        List.replicate_succ, List.cons_append, List.head?_cons] at hy
      simp at hy
      subst hy
      exact ⟨Nat.le_succ x, le_refl (x + 1)⟩

theorem coordsDiffOk_of_rows_nonempty (sf : List (List Entry))
    (h : ∀ row ∈ sf, row ≠ []) : coordsDiffOk (sfCoords0 sf) = true := by
  rw [coordsDiffOk_iff_chain]
  have hch := chain_sfCoords0_from sf 0 h
  simpa [sfCoords0, List.enum] using hch

/-- C9: the centering step fails with the assertion error exactly when some
consecutive difference of the ROI-index coordinate array `sf_rs.coords[0]`
is outside `{0, 1}` (the whole step is aborted, no ROI is silently skipped),
and under the precondition that every ROI's footprint row has at least one
stored non-zero entry the assertion never fires. -/
theorem C9_centering_assertion (FOV_height FOV_width : ℕ) (sf : List (List Entry))
    (centroids : List (ℤ × ℤ)) (ohw : ℕ × ℕ) :
    ((sf_to_centeredROIs FOV_height FOV_width sf centroids ohw).isOk = false ↔
      ∃ pr ∈ (sfCoords0 sf).zip (sfCoords0 sf).tail,
        ¬(pr.1 ≤ pr.2 ∧ pr.2 ≤ pr.1 + 1)) ∧
    ((∀ row ∈ sf, row ≠ []) →
      (sf_to_centeredROIs FOV_height FOV_width sf centroids ohw).isOk = true) := by
  by_cases h : coordsDiffOk (sfCoords0 sf) = true
  · rw [sf_to_centeredROIs]
    simp only [h, if_true]
    constructor
    · constructor
      · intro hfalse
        exact Bool.noConfusion hfalse
      · rintro ⟨pr, hpr, hbad⟩
        have hall := (List.all_eq_true.mp h) pr hpr
        simp only [Bool.and_eq_true, decide_eq_true_eq] at hall
        exact absurd hall hbad
    · intro _; rfl
  · rw [sf_to_centeredROIs]
    simp only [h, if_false]
    constructor
    · constructor
      · intro _
        rw [coordsDiffOk, List.all_eq_true] at h
        push_neg at h
        obtain ⟨pr, hpr, hbad⟩ := h
        refine ⟨pr, hpr, fun hc => hbad ?_⟩
        simp [hc.1, hc.2]
      · intro _; rfl
    · intro hne
      exact absurd (coordsDiffOk_of_rows_nonempty sf hne) h

/-- Witness for C9: with one ROI owning one stored entry (every row
non-empty) the centering step succeeds. -/
theorem C9_centering_assertion_witness :
    (sf_to_centeredROIs 5 5 [[⟨0, 0, 1⟩]] [(0, 0)] (36, 36)).isOk = true :=
  (C9_centering_assertion 5 5 [[⟨0, 0, 1⟩]] [(0, 0)] (36, 36)).2 (by decide)

/-! ### C6: the session-membership matrix -/

theorem getD_replicate_of_lt {x : α} {n j : ℕ} (d : α) (h : j < n) :
    (List.replicate n x).getD j d = x := by
  rw [List.getD_eq_getElem _ _ (by simpa using h), List.getElem_replicate]

theorem idx2bool_length (i n : ℕ) : (idx2bool i n).length = n := by
  simp [idx2bool]

theorem idx2bool_getD {j n : ℕ} (i : ℕ) (h : j < n) :
    (idx2bool i n).getD j false = decide (j = i) := by
  rw [idx2bool, List.getD_eq_getElem _ _ (by simpa using h), List.getElem_map,
    List.getElem_range]

theorem countP_decide_eq_range (i n : ℕ) :
    (List.range n).countP (fun j => decide (j = i)) = if i < n then 1 else 0 := by
  induction n with
  | zero => simp
  | succ m ih =>
    rw [List.range_succ, List.countP_append, ih]
    have hm : List.countP (fun j => decide (j = i)) [m] = if i = m then 1 else 0 := by
      by_cases him : i = m
      · subst him; simp
      · simp [List.countP_cons, Ne.symm him, him]
    rw [hm]
    split_ifs <;> omega

theorem idx2bool_count_true {i n : ℕ} (h : i < n) :
    (idx2bool i n).count true = 1 := by
  rw [idx2bool, List.count, List.countP_map]
  have : ((fun a => a == true) ∘ fun j => decide (j = i)) = fun j => decide (j = i) := by
    funext j
    simp
  rw [this, countP_decide_eq_range, if_pos h]

theorem sessionID_block_getD (f : ℕ → List Bool) :
    ∀ (l : List ℕ) (k i j : ℕ), i < l.length → j < l.getD i 0 →
    (((l.enumFrom k).map (fun p => List.replicate p.2 (f p.1))).flatten).getD
      ((l.take i).sum + j) [] = f (k + i) := by
  intro l
  induction l with
  | nil => intro k i j hi _; exact absurd hi (by simp)
  | cons a t ih =>
    intro k i j hi hj
    simp only [List.enumFrom_cons, List.map_cons, List.flatten_cons]
    cases i with
    | zero =>
      rw [List.getD_cons_zero] at hj
      rw [List.take_zero, List.sum_nil, Nat.zero_add, Nat.add_zero]
      rw [List.getD_append _ _ _ _ (by simpa using hj)]
      exact getD_replicate_of_lt [] hj
    | succ i2 =>
      rw [List.getD_cons_succ] at hj
      have hi2 : i2 < t.length := by simpa using hi
      rw [List.take_succ_cons, List.sum_cons, Nat.add_assoc]
      have hlen : (List.replicate a (f k)).length ≤ a + ((t.take i2).sum + j) := by
        simp
      rw [List.getD_append_right _ _ _ _ hlen, List.length_replicate,
        Nat.add_sub_cancel_left, ih (k + 1) i2 j hi2 hj]
      congr 1
      omega

theorem sessionID_col_count (n : ℕ) :
    ∀ (l : List ℕ) (k j : ℕ), j < n →
    (((l.enumFrom k).map (fun p => List.replicate p.2 (idx2bool p.1 n))).flatten).countP
      (fun row => row.getD j false) =
      if k ≤ j ∧ j < k + l.length then l.getD (j - k) 0 else 0 := by
  intro l
  induction l with
  | nil =>
    intro k j hj
    simp only [List.enumFrom_nil, List.map_nil, List.flatten_nil, List.countP_nil,
      List.length_nil, Nat.add_zero]
    rw [if_neg (by omega)]
  | cons a t ih =>
    intro k j hj
    simp only [List.enumFrom_cons, List.map_cons, List.flatten_cons, List.countP_append,
      List.countP_replicate, idx2bool_getD k hj, ih (k + 1) j hj, List.length_cons]
    by_cases hjk : j = k
    · subst hjk
      rw [if_pos (by simp), if_neg (by omega), Nat.sub_self,
        if_pos ⟨Nat.le_refl j, by omega⟩, List.getD_cons_zero, Nat.add_zero]
    · rw [if_neg (by simp [hjk])]
      rcases Nat.lt_or_ge j k with hlt | hge
      · rw [if_neg (by omega), if_neg (by omega), Nat.zero_add]
      · have hk1 : k + 1 ≤ j := by omega
        by_cases hup : j < k + 1 + t.length
        · rw [if_pos ⟨hk1, hup⟩, if_pos ⟨hge, by omega⟩, Nat.zero_add]
          have hsub : j - k = (j - (k + 1)) + 1 := by omega
          rw [hsub, List.getD_cons_succ]
        · rw [if_neg (by omega), if_neg (by omega), Nat.zero_add]

/-- C6: the session-membership matrix built from the per-session ROI counts
is boolean of shape `(Σ n_roi, n_sessions)`; every row has exactly one
`true`; the rows of session `i`'s block (rows `Σ_{s<i} n_roi[s]` through
`Σ_{s<i} n_roi[s] + n_roi[i] − 1`, i.e. concatenation order) are the one-hot
row at column `i`; and column `j` holds exactly `n_roi[j]` `true`s. -/
theorem C6_session_membership (n_roi : List ℕ) :
    (sessionID_concat n_roi).length = n_roi.sum ∧
    (∀ row ∈ sessionID_concat n_roi,
      row.length = n_roi.length ∧ row.count true = 1) ∧
    (∀ i j, i < n_roi.length → j < n_roi.getD i 0 →
      (sessionID_concat n_roi).getD ((n_roi.take i).sum + j) [] =
        idx2bool i n_roi.length) ∧
    (∀ j, j < n_roi.length →
      (sessionID_concat n_roi).countP (fun row => row.getD j false) =
        n_roi.getD j 0) := by
  refine ⟨?_, ?_, ?_, ?_⟩
  · rw [sessionID_concat, List.length_flatten, List.map_map]
    have : (List.length ∘ fun p : ℕ × ℕ => List.replicate p.2 (idx2bool p.1 n_roi.length))
        = Prod.snd := by
      funext p
      simp
    rw [this, List.enum_map_snd]
  · intro row hrow
    rw [sessionID_concat, List.mem_flatten] at hrow
    obtain ⟨blk, hblk, hrowblk⟩ := hrow
    rw [List.mem_map] at hblk
    obtain ⟨p, hp, hblkeq⟩ := hblk
    subst hblkeq
    obtain ⟨hi, -⟩ := List.mem_enum hp
    have hroweq := List.eq_of_mem_replicate hrowblk
    subst hroweq
    exact ⟨idx2bool_length _ _, idx2bool_count_true hi⟩
  · intro i j hi hj
    have h := sessionID_block_getD (fun s => idx2bool s n_roi.length) n_roi 0 i j hi hj
    rw [Nat.zero_add] at h
    rw [sessionID_concat]
    rw [show n_roi.enum = n_roi.enumFrom 0 from rfl]
    exact h
  · intro j hj
    have h := sessionID_col_count n_roi.length n_roi 0 j hj
    rw [if_pos ⟨Nat.zero_le _, by simpa using hj⟩, Nat.sub_zero] at h
    rw [sessionID_concat]
    rw [show n_roi.enum = n_roi.enumFrom 0 from rfl]
    exact h

/-- Witness for C6: two sessions with 3 and 2 ROIs — 5 rows, row 3 is the
one-hot row at column 1, and column 0 holds 3 `true`s. -/
theorem C6_session_membership_witness :
    (sessionID_concat [3, 2]).length = 5 ∧
    (sessionID_concat [3, 2]).getD 3 [] = idx2bool 1 2 ∧
    (sessionID_concat [3, 2]).countP (fun row => row.getD 0 false) = 3 := by
  have h := C6_session_membership [3, 2]
  refine ⟨by rw [h.1]; decide, ?_, ?_⟩
  · have := h.2.2.1 1 0 (by decide) (by decide)
    simpa using this
  · have := h.2.2.2 0 (by decide)
    simpa using this

/-! ### C4: crop semantics of the centering step -/

theorem getD_map_range (f : ℕ → α) (d : α) {n j : ℕ} (h : j < n) :
    ((List.range n).map f).getD j d = f j := by
  rw [List.getD_eq_getElem _ _ (by simpa using h), List.getElem_map,
    List.getElem_range]

theorem dropLast_map (f : α → β) : ∀ (l : List α),
    (l.map f).dropLast = l.dropLast.map f := by
  intro l
  induction l with
  | nil => rfl
  | cons a t ih =>
    cases t with
    | nil => rfl
    | cons b t2 =>
      simp only [List.map_cons, List.dropLast_cons₂, ih]
      simp

theorem cumsum_ne_nil {l : List ℕ} (h : l ≠ []) : cumsum l ≠ [] := by
  cases l with
  | nil => exact absurd rfl h
  | cons a t => simp [cumsum]

theorem npSplit_go_flatten : ∀ (blocks : List (List α)) (prev : ℕ), blocks ≠ [] →
    npSplit.go blocks.flatten prev
      ((cumsum (blocks.map List.length)).dropLast.map (fun x => prev + x)) = blocks := by
  intro blocks
  induction blocks with
  | nil => intro prev h; exact absurd rfl h
  | cons b rest ih =>
    intro prev _
    cases rest with
    | nil =>
      simp [cumsum, npSplit.go]
    | cons b2 rest2 =>
      rw [List.map_cons, cumsum]
      have hne2 : cumsum ((b2 :: rest2).map List.length) ≠ [] :=
        cumsum_ne_nil (by simp)
      rw [show ∀ (x : ℕ) (l : List ℕ), l ≠ [] → (x :: l).dropLast = x :: l.dropLast by
        intro x l hl
        cases l with
        | nil => exact absurd rfl hl
        | cons y l2 => exact List.dropLast_cons₂]
      · rw [List.map_cons, List.flatten_cons, npSplit.go, Nat.add_sub_cancel_left,
          List.take_left, List.drop_left, dropLast_map, List.map_map]
        have hcomp : ((fun x => prev + x) ∘ (fun x => b.length + x)) =
            (fun x => (prev + b.length) + x) := by
          funext x
          simp [Function.comp_apply]
          omega
        rw [hcomp, ih (prev + b.length) (by simp)]
      · exact (cumsum_ne_nil (by simp : ((b2 :: rest2).map List.length) ≠ [])).imp
          (fun h => by simpa [dropLast_map] using congrArg (List.map (b.length + ·)) h)

theorem npSplit_flatten (blocks : List (List α)) (hb : blocks ≠ []) :
    npSplit blocks.flatten ((cumsum (blocks.map List.length)).dropLast) = blocks := by
  rw [npSplit]
  have hpts : (cumsum (blocks.map List.length)).dropLast =
      (cumsum (blocks.map List.length)).dropLast.map (fun x => 0 + x) := by
    simp
  rw [hpts]
  exact npSplit_go_flatten blocks 0 hb

theorem posCount_eq_length {row : List Entry} (h : ∀ e ∈ row, 0 < e.w) :
    posCount row = row.length := by
  rw [posCount]
  congr 1
  rw [List.filter_eq_self]
  intro e he
  simpa using h e he

theorem replicate_zip (x : α) : ∀ (l : List β),
    (List.replicate l.length x).zip l = l.map (fun b => (x, b)) := by
  intro l
  induction l with
  | nil => rfl
  | cons a t ih => simp [List.replicate_succ, ih]

theorem zipWith_zip_map_same (fA : γ → List α) (fX : γ → List β) :
    ∀ (l : List γ),
    List.zipWith List.zip (l.map fA) (l.map fX) = l.map (fun p => (fA p).zip (fX p)) := by
  intro l
  induction l with
  | nil => rfl
  | cons a t ih => simp [ih]

theorem flatten_zip_flatten : ∀ (as : List (List α)) (bs : List (List β)),
    as.map List.length = bs.map List.length →
    as.flatten.zip bs.flatten = (List.zipWith List.zip as bs).flatten := by
  intro as
  induction as with
  | nil =>
    intro bs h
    cases bs with
    | nil => rfl
    | cons b bs2 => simp at h
  | cons a as2 ih =>
    intro bs h
    cases bs with
    | nil => simp at h
    | cons b bs2 =>
      simp only [List.map_cons, List.cons.injEq] at h
      simp only [List.flatten_cons, List.zipWith_cons_cons]
      rw [List.zip_append h.1, ih bs2 h.2]

theorem translate_flatten_eq (g : Entry → ℕ) (cent : List ℤ) (hw : ℤ) :
    ∀ (sf : List (List Entry)), (∀ row ∈ sf, ∀ e ∈ row, 0 < e.w) →
    (translateGroups (npSplit ((sf.map (fun row => row.map g)).flatten)
      (splitPoints sf)) cent hw).flatten =
    (sf.enum.map (fun p =>
      p.2.map (fun e => (g e : ℤ) - cent.getD p.1 0 + hw))).flatten := by
  intro sf hpos
  cases sf with
  | nil => simp [translateGroups, npSplit, npSplit.go, splitPoints, cumsum]
  | cons r0 rest =>
    have hsp : splitPoints (r0 :: rest) =
        (cumsum (((r0 :: rest).map (fun row => row.map g)).map List.length)).dropLast := by
      rw [splitPoints, List.map_map]
      congr 2
      apply List.map_congr_left
      intro row hrow
      rw [posCount_eq_length (hpos row hrow)]
      simp
    rw [hsp, npSplit_flatten _ (by simp), translateGroups, List.enum_map, List.map_map]
    refine congrArg List.flatten ?_
    apply List.map_congr_left
    intro p _
    simp [Prod.map, List.map_map, Function.comp_def]

theorem flatten_zip_enum_maps (fB : ℕ × List Entry → List α)
    (fC : ℕ × List Entry → List β) (sf : List (List Entry))
    (hB : ∀ p : ℕ × List Entry, (fB p).length = p.2.length)
    (hC : ∀ p : ℕ × List Entry, (fC p).length = p.2.length) :
    ((sf.enum.map fB).flatten).zip ((sf.enum.map fC).flatten) =
      (sf.enum.map (fun p => (fB p).zip (fC p))).flatten := by
  rw [flatten_zip_flatten _ _ (by
    rw [List.map_map, List.map_map]
    apply List.map_congr_left
    intro p _
    simp [hB, hC]), zipWith_zip_map_same]

theorem quads_eq (sf : List (List Entry)) (cr cc : List ℤ) (h1 h2 : ℤ)
    (hpos : ∀ row ∈ sf, ∀ e ∈ row, 0 < e.w) :
    (sfCoords0 sf).zip
      (((translateGroups (npSplit (sfCoords1 sf) (splitPoints sf)) cr h1).flatten).zip
        (((translateGroups (npSplit (sfCoords2 sf) (splitPoints sf)) cc h2).flatten).zip
          (sfData sf))) =
    (sf.enum.map (fun p => p.2.map (fun e =>
      (p.1, ((e.r : ℤ) - cr.getD p.1 0 + h1,
        ((e.c : ℤ) - cc.getD p.1 0 + h2, e.w)))))).flatten := by
  have h1eq := translate_flatten_eq (fun e => e.r) cr h1 sf hpos
  have h2eq := translate_flatten_eq (fun e => e.c) cc h2 sf hpos
  rw [show sfCoords1 sf = (sf.map (fun row => row.map (fun e => e.r))).flatten from rfl,
    show sfCoords2 sf = (sf.map (fun row => row.map (fun e => e.c))).flatten from rfl,
    h1eq, h2eq]
  have hD : sfData sf = (sf.enum.map (fun p => p.2.map (fun e => e.w))).flatten := by
    rw [sfData]
    refine congrArg List.flatten ?_
    conv_lhs => rw [← List.enum_map_snd sf]
    rw [List.map_map]
    rfl
  rw [hD]
  rw [flatten_zip_enum_maps _ _ sf (fun p => by simp) (fun p => by simp)]
  rw [flatten_zip_enum_maps _ _ sf (fun p => by simp) (fun p => by simp [List.length_zip])]
  rw [show sfCoords0 sf =
    (sf.enum.map (fun p => List.replicate p.2.length p.1)).flatten from rfl]
  rw [flatten_zip_enum_maps _ _ sf (fun p => by simp)
    (fun p => by simp [List.length_zip])]
  refine congrArg List.flatten ?_
  apply List.map_congr_left
  intro p _
  rw [List.zip_map', List.zip_map']
  have hlen : p.2.length = (p.2.map (fun e =>
      ((e.r : ℤ) - cr.getD p.1 0 + h1, ((e.c : ℤ) - cc.getD p.1 0 + h2, e.w)))).length := by
    simp
  rw [hlen, replicate_zip, List.map_map]
  rfl


theorem sum_map_filter_flatten_zero {τ : Type} (G : ℕ → List Entry → List τ)
    (P : τ → Bool) (v : τ → ℚ) (i : ℕ)
    (hzero : ∀ j row, j ≠ i → (G j row).filter P = []) :
    ∀ (l : List (List Entry)) (k : ℕ), i < k →
    ((((l.enumFrom k).map (fun p => G p.1 p.2)).flatten.filter P).map v).sum = 0 := by
  intro l
  induction l with
  | nil => intro k _; rfl
  | cons a t ih =>
    intro k hk
    simp only [List.enumFrom_cons, List.map_cons, List.flatten_cons,
      List.filter_append, List.map_append, List.sum_append]
    rw [hzero k a (by omega)]
    simp only [List.map_nil, List.sum_nil, zero_add]
    exact ih (k + 1) (by omega)

theorem sum_map_filter_flatten_single {τ : Type} (G : ℕ → List Entry → List τ)
    (P : τ → Bool) (v : τ → ℚ) (i : ℕ)
    (hzero : ∀ j row, j ≠ i → (G j row).filter P = []) :
    ∀ (l : List (List Entry)) (k : ℕ), k ≤ i → i < k + l.length →
    ((((l.enumFrom k).map (fun p => G p.1 p.2)).flatten.filter P).map v).sum =
      (((G i (l.getD (i - k) [])).filter P).map v).sum := by
  intro l
  induction l with
  | nil =>
    intro k hk1 hk2
    exact absurd hk2 (by simp; omega)
  | cons a t ih =>
    intro k hk1 hk2
    simp only [List.enumFrom_cons, List.map_cons, List.flatten_cons,
      List.filter_append, List.map_append, List.sum_append]
    by_cases hki : k = i
    · subst hki
      rw [sum_map_filter_flatten_zero G P v k hzero t (k + 1) (by omega)]
      simp only [Nat.sub_self, List.getD_cons_zero, add_zero]
    · rw [hzero k a (by omega)]
      simp only [List.map_nil, List.sum_nil, zero_add]
      rw [ih (k + 1) (by omega) (by simp only [List.length_cons] at hk2; omega)]
      have hsub : i - k = (i - (k + 1)) + 1 := by omega
      rw [hsub, List.getD_cons_succ]

theorem filter_eq_single {l : List α} {e : α} {P : α → Bool}
    (hmem : e ∈ l) (hPe : P e = true) (huniq : ∀ x ∈ l, P x = true → x = e)
    (hnd : l.Nodup) : l.filter P = [e] := by
  induction l with
  | nil => simp at hmem
  | cons a t ih =>
    rcases List.mem_cons.mp hmem with rfl | hmt
    · rw [List.filter_cons_of_pos hPe]
      have ht : t.filter P = [] := by
        rw [List.filter_eq_nil_iff]
        intro x hx hPx
        have hxe := huniq x (List.mem_cons_of_mem _ hx) hPx
        subst hxe
        exact (List.nodup_cons.mp hnd).1 hx
      rw [ht]
    · have ha : ¬(P a = true) := by
        intro hPa
        have hae := huniq a (List.mem_cons_self _ _) hPa
        subst hae
        exact (List.nodup_cons.mp hnd).1 hmt
      rw [List.filter_cons_of_neg ha]
      exact ih hmt (fun x hx hPx => huniq x (List.mem_cons_of_mem _ hx) hPx)
        (List.nodup_cons.mp hnd).2

theorem centeredCell_ok' (n h w : ℕ) (cell : ℕ → ℕ → ℕ → ℚ) (i r c : ℕ)
    (hi : i < n) (hr : r < h) (hc : c < w) :
    centeredCell (.ok ((List.range n).map (fun i => (List.range h).map (fun r =>
      (List.range w).map (fun c => cell i r c))))) i r c = cell i r c := by
  have hcc : ∀ x : List (List (List ℚ)), centeredCell (.ok x) i r c =
      ((x.getD i []).getD r []).getD c 0 := fun _ => rfl
  rw [hcc, getD_map_range _ _ hi, getD_map_range _ _ hr, getD_map_range _ _ hc]

/-- C4 (amended): in the centering step the effective patch size is the
hard-coded 36×36 with half-widths `ceil(36/2) = 18` (the requested size is
ignored), and the output window is additionally clipped by the FOV extent to
`[0, min 36 FOV_height) × [0, min 36 FOV_width)`. Within that window, every
stored entry whose translated coordinates (original minus the ROI's centroid
plus 18 per axis) fall inside appears at exactly those coordinates with its
own weight, and a cell hit by no translated entry of its ROI is 0 — entries
translated outside the window are discarded, never wrapped or padded. -/
theorem C4_amended_crop_semantics (FOV_height FOV_width : ℕ)
    (sf : List (List Entry)) (centroids : List (ℤ × ℤ)) (ohw : ℕ × ℕ)
    (hpos : ∀ row ∈ sf, ∀ e ∈ row, 0 < e.w)
    (hne : ∀ row ∈ sf, row ≠ [])
    (hnd : ∀ row ∈ sf, (row.map (fun e => (e.r, e.c))).Nodup)
    (i : ℕ) (hi : i < sf.length) :
    (sf_to_centeredROIs FOV_height FOV_width sf centroids ohw).isOk = true ∧
    centeredShape (sf_to_centeredROIs FOV_height FOV_width sf centroids ohw) =
      (sf.length, List.replicate sf.length
        (min 36 FOV_height, List.replicate (min 36 FOV_height) (min 36 FOV_width))) ∧
    (∀ e ∈ sf.getD i [], ∀ r c : ℕ, r < min 36 FOV_height → c < min 36 FOV_width →
      (e.r : ℤ) - (centroids.map (fun p => p.1)).getD i 0 + 18 = (r : ℤ) →
      (e.c : ℤ) - (centroids.map (fun p => p.2)).getD i 0 + 18 = (c : ℤ) →
      centeredCell (sf_to_centeredROIs FOV_height FOV_width sf centroids ohw) i r c
        = e.w) ∧
    (∀ r c : ℕ, r < min 36 FOV_height → c < min 36 FOV_width →
      (∀ e ∈ sf.getD i [],
        ¬((e.r : ℤ) - (centroids.map (fun p => p.1)).getD i 0 + 18 = (r : ℤ) ∧
          (e.c : ℤ) - (centroids.map (fun p => p.2)).getD i 0 + 18 = (c : ℤ))) →
      centeredCell (sf_to_centeredROIs FOV_height FOV_width sf centroids ohw) i r c
        = 0) := by
  have hok : coordsDiffOk (sfCoords0 sf) = true := coordsDiffOk_of_rows_nonempty sf hne
  have hres : sf_to_centeredROIs FOV_height FOV_width sf centroids ohw =
      .ok ((List.range sf.length).map (fun (i : ℕ) =>
        (List.range (min 36 FOV_height)).map (fun (r : ℕ) =>
          (List.range (min 36 FOV_width)).map (fun (c : ℕ) =>
            ((((sfCoords0 sf).zip
              (((translateGroups (npSplit (sfCoords1 sf) (splitPoints sf))
                (centroids.map (fun p => p.1)) 18).flatten).zip
                (((translateGroups (npSplit (sfCoords2 sf) (splitPoints sf))
                  (centroids.map (fun p => p.2)) 18).flatten).zip
                  (sfData sf)))).filter (fun q =>
              decide (q.1 = i) && decide (q.2.1 = (r : ℤ)) &&
              decide (q.2.2.1 = (c : ℤ)))).map (fun q => q.2.2.2)).sum)))) := by
    rw [sf_to_centeredROIs]
    simp only [hok, if_true]
    rfl
  have hrowmem : sf.getD i [] ∈ sf := by
    rw [List.getD_eq_getElem _ _ hi]
    exact List.getElem_mem hi
  refine ⟨by rw [hres]; rfl, by rw [hres, centeredShape_ok], ?_, ?_⟩
  · intro e he r c hr hc her hec
    rw [hres, centeredCell_ok' sf.length (min 36 FOV_height) (min 36 FOV_width) _
      i r c hi hr hc]
    rw [quads_eq sf (centroids.map (fun p => p.1)) (centroids.map (fun p => p.2))
      18 18 hpos]
    have hsingle : (((sf.enum.map (fun p => p.2.map (fun e =>
        (p.1, ((e.r : ℤ) - (centroids.map (fun p => p.1)).getD p.1 0 + 18,
          ((e.c : ℤ) - (centroids.map (fun p => p.2)).getD p.1 0 + 18,
            e.w)))))).flatten.filter (fun q =>
          decide (q.1 = i) && decide (q.2.1 = (r : ℤ)) &&
          decide (q.2.2.1 = (c : ℤ)))).map (fun q => q.2.2.2)).sum =
        ((((sf.getD i []).map (fun e =>
          (i, ((e.r : ℤ) - (centroids.map (fun p => p.1)).getD i 0 + 18,
            ((e.c : ℤ) - (centroids.map (fun p => p.2)).getD i 0 + 18,
              e.w))))).filter (fun q =>
          decide (q.1 = i) && decide (q.2.1 = (r : ℤ)) &&
          decide (q.2.2.1 = (c : ℤ)))).map (fun q => q.2.2.2)).sum := by
      exact sum_map_filter_flatten_single
        (fun j row => row.map (fun e =>
          (j, ((e.r : ℤ) - (centroids.map (fun p => p.1)).getD j 0 + 18,
            ((e.c : ℤ) - (centroids.map (fun p => p.2)).getD j 0 + 18, e.w)))))
        _ _ i
        (fun j row hji => by
          rw [List.filter_map]
          have hn : row.filter ((fun (q : ℕ × (ℤ × (ℤ × ℚ))) =>
              decide (q.1 = i) && decide (q.2.1 = (r : ℤ)) &&
              decide (q.2.2.1 = (c : ℤ))) ∘ (fun e =>
              (j, ((e.r : ℤ) - (centroids.map (fun p => p.1)).getD j 0 + 18,
                ((e.c : ℤ) - (centroids.map (fun p => p.2)).getD j 0 + 18,
                  e.w))))) = [] := by
            rw [List.filter_eq_nil_iff]
            intro x _
            simp only [Function.comp_apply, Bool.and_eq_true, decide_eq_true_eq]
            rintro ⟨⟨hj, -⟩, -⟩
            exact hji hj
          rw [hn, List.map_nil])
        sf 0 (Nat.zero_le _) (by omega)
    rw [hsingle, List.filter_map, List.map_map]
    have hfe : (sf.getD i []).filter ((fun (q : ℕ × (ℤ × (ℤ × ℚ))) =>
        decide (q.1 = i) && decide (q.2.1 = (r : ℤ)) &&
        decide (q.2.2.1 = (c : ℤ))) ∘ (fun e =>
        (i, ((e.r : ℤ) - (centroids.map (fun p => p.1)).getD i 0 + 18,
          ((e.c : ℤ) - (centroids.map (fun p => p.2)).getD i 0 + 18,
            e.w))))) = [e] := by
      refine filter_eq_single he ?_ ?_ (List.Nodup.of_map _ (hnd _ hrowmem))
      · simp only [Function.comp_apply, Bool.and_eq_true, decide_eq_true_eq]
        exact ⟨⟨trivial, her⟩, hec⟩
      · intro x hx hPx
        simp only [Function.comp_apply, Bool.and_eq_true, decide_eq_true_eq] at hPx
        obtain ⟨⟨-, hxr⟩, hxc⟩ := hPx
        have hr' : x.r = e.r := by omega
        have hc' : x.c = e.c := by omega
        exact List.inj_on_of_nodup_map (hnd _ hrowmem) hx he (by simp [hr', hc'])
    rw [hfe]
    simp
  · intro r c hr hc hnone
    rw [hres, centeredCell_ok' sf.length (min 36 FOV_height) (min 36 FOV_width) _
      i r c hi hr hc]
    rw [quads_eq sf (centroids.map (fun p => p.1)) (centroids.map (fun p => p.2))
      18 18 hpos]
    have hsingle : (((sf.enum.map (fun p => p.2.map (fun e =>
        (p.1, ((e.r : ℤ) - (centroids.map (fun p => p.1)).getD p.1 0 + 18,
          ((e.c : ℤ) - (centroids.map (fun p => p.2)).getD p.1 0 + 18,
            e.w)))))).flatten.filter (fun q =>
          decide (q.1 = i) && decide (q.2.1 = (r : ℤ)) &&
          decide (q.2.2.1 = (c : ℤ)))).map (fun q => q.2.2.2)).sum =
        ((((sf.getD i []).map (fun e =>
          (i, ((e.r : ℤ) - (centroids.map (fun p => p.1)).getD i 0 + 18,
            ((e.c : ℤ) - (centroids.map (fun p => p.2)).getD i 0 + 18,
              e.w))))).filter (fun q =>
          decide (q.1 = i) && decide (q.2.1 = (r : ℤ)) &&
          decide (q.2.2.1 = (c : ℤ)))).map (fun q => q.2.2.2)).sum := by
      exact sum_map_filter_flatten_single
        (fun j row => row.map (fun e =>
          (j, ((e.r : ℤ) - (centroids.map (fun p => p.1)).getD j 0 + 18,
            ((e.c : ℤ) - (centroids.map (fun p => p.2)).getD j 0 + 18, e.w)))))
        _ _ i
        (fun j row hji => by
          rw [List.filter_map]
          have hn : row.filter ((fun (q : ℕ × (ℤ × (ℤ × ℚ))) =>
              decide (q.1 = i) && decide (q.2.1 = (r : ℤ)) &&
              decide (q.2.2.1 = (c : ℤ))) ∘ (fun e =>
              (j, ((e.r : ℤ) - (centroids.map (fun p => p.1)).getD j 0 + 18,
                ((e.c : ℤ) - (centroids.map (fun p => p.2)).getD j 0 + 18,
                  e.w))))) = [] := by
            rw [List.filter_eq_nil_iff]
            intro x _
            simp only [Function.comp_apply, Bool.and_eq_true, decide_eq_true_eq]
            rintro ⟨⟨hj, -⟩, -⟩
            exact hji hj
          rw [hn, List.map_nil])
        sf 0 (Nat.zero_le _) (by omega)
    rw [hsingle, List.filter_map, List.map_map]
    have hempty : (sf.getD i []).filter ((fun (q : ℕ × (ℤ × (ℤ × ℚ))) =>
        decide (q.1 = i) && decide (q.2.1 = (r : ℤ)) &&
        decide (q.2.2.1 = (c : ℤ))) ∘ (fun e =>
        (i, ((e.r : ℤ) - (centroids.map (fun p => p.1)).getD i 0 + 18,
          ((e.c : ℤ) - (centroids.map (fun p => p.2)).getD i 0 + 18,
            e.w))))) = [] := by
      rw [List.filter_eq_nil_iff]
      intro x hx
      simp only [Function.comp_apply, Bool.and_eq_true, decide_eq_true_eq]
      rintro ⟨⟨-, hxr⟩, hxc⟩
      exact hnone x hx ⟨hxr, hxc⟩
    rw [hempty]
    rfl

/-- Counterexample to C4 as stated: with requested patch size `(2, 2)`
(so the claim's half-widths are `ceil(2/2) = 1`), a single-pixel ROI at
`(0, 0)` with weight 1 and centroid `(0, 0)` has claim-translated
coordinates `(1, 1)`, inside the claim's window `[0, 2) × [0, 2)` — yet the
output holds 0 at `(1, 1)`: the code ignores the requested size and places
the entry at `(0 − 0 + 18, 0 − 0 + 18) = (18, 18)`. -/
theorem C4_claim_counterexample :
    centeredCell (sf_to_centeredROIs 40 40 [[⟨0, 0, 1⟩]] [(0, 0)] (2, 2)) 0 1 1 = 0 ∧
    centeredCell (sf_to_centeredROIs 40 40 [[⟨0, 0, 1⟩]] [(0, 0)] (2, 2)) 0 18 18 = 1 := by
  have hok : coordsDiffOk (sfCoords0 [[⟨0, 0, 1⟩]]) = true := by decide
  have hres : sf_to_centeredROIs 40 40 [[⟨0, 0, 1⟩]] [(0, 0)] (2, 2) =
      .ok ((List.range 1).map (fun (i : ℕ) =>
        (List.range 36).map (fun (r : ℕ) =>
          (List.range 36).map (fun (c : ℕ) =>
            ((((sfCoords0 [[⟨0, 0, 1⟩]]).zip
              (((translateGroups (npSplit (sfCoords1 [[⟨0, 0, 1⟩]])
                (splitPoints [[⟨0, 0, 1⟩]]))
                (([((0 : ℤ), (0 : ℤ))]).map (fun p => p.1)) 18).flatten).zip
                (((translateGroups (npSplit (sfCoords2 [[⟨0, 0, 1⟩]])
                  (splitPoints [[⟨0, 0, 1⟩]]))
                  (([((0 : ℤ), (0 : ℤ))]).map (fun p => p.2)) 18).flatten).zip
                  (sfData [[⟨0, 0, 1⟩]])))).filter (fun q =>
              decide (q.1 = i) && decide (q.2.1 = (r : ℤ)) &&
              decide (q.2.2.1 = (c : ℤ)))).map (fun q => q.2.2.2)).sum)))) := by
    rw [sf_to_centeredROIs]
    simp only [hok, if_true]
    rfl
  constructor
  · rw [hres, centeredCell_ok' 1 36 36 _ 0 1 1 (by norm_num) (by norm_num)
      (by norm_num)]
    rfl
  · rw [hres, centeredCell_ok' 1 36 36 _ 0 18 18 (by norm_num) (by norm_num)
      (by norm_num)]
    show (1 : ℚ) + 0 = 1
    norm_num

/-- Witness for the amended C4: a single-pixel ROI at `(20, 20)` with
centroid `(20, 20)` in a 40×40 FOV is kept at the translated coordinates
`(18, 18)` with its weight. -/
theorem C4_amended_crop_semantics_witness :
    (sf_to_centeredROIs 40 40 [[⟨20, 20, 1⟩]] [(20, 20)] (36, 36)).isOk = true ∧
    centeredCell (sf_to_centeredROIs 40 40 [[⟨20, 20, 1⟩]] [(20, 20)] (36, 36))
      0 18 18 = 1 := by
  have h := C4_amended_crop_semantics 40 40 [[⟨20, 20, 1⟩]] [(20, 20)] (36, 36)
    (by decide) (by decide) (by decide) 0 (by decide)
  exact ⟨h.1, h.2.2.1 ⟨20, 20, 1⟩ (by decide) 18 18 (by decide) (by decide)
    (by decide) (by decide)⟩
